import Mathlib

/-!
Verification of the derived-view computation layer of the ipshitas-library
book-tracking application: the aggregate statistics engine
(`src/components/ReadingStats.tsx`), the filter/sort view builder
(`src/App.tsx`, `filteredBooks`), the reading-goal synchronizer
(`backend/src/routes/reading-goal.ts`, the router actually mounted in
`backend/src/index.ts`), and the status-change operation
(`src/App.tsx`, `handleChangeStatus`, through `api.updateBook` and the
backend `PUT /api/books/:id` route).

Modelling conventions:
* JavaScript numbers holding review ratings, page counts and counters are
  modelled as `Int` / `Nat`; averages (float division) are modelled as `ℚ`.
* A `dateAdded` string is modelled by the three observations the code makes
  of it: `new Date(s).getFullYear()`, `.getMonth()` and `.getTime()`, as a
  `DateStamp` record.
* `String.prototype.localeCompare` is modelled as code-point lexicographic
  comparison returning a sign in {-1, 0, 1}.
* `Array.prototype.sort` (required stable by ECMAScript) is modelled as a
  stable insertion sort taking `le a b := (comparator a b ≤ 0)`.
* A TypeScript `Partial<Book>` sent over JSON is modelled field by field as
  `Option`; a key present with value `undefined` is `some none`, an absent
  key is `none`.  `JSON.stringify` drops keys whose value is `undefined`.
-/

/-- The `ReadingStatus` union type from `src/types/book.ts`. -/
inductive ReadingStatus
  | want_to_read
  | reading
  | read
deriving DecidableEq, Repr

/-- The `Review` interface from `src/types/book.ts`. -/
structure Review where
  id : String
  content : String
  rating : Int
  dateAdded : String
deriving DecidableEq, Repr

/-- The three observations the code makes of a `dateAdded` string via the
`Date` API: `getFullYear()`, `getMonth()` (0-11) and `getTime()`. -/
structure DateStamp where
  year : Int
  month : Nat
  time : Int
deriving DecidableEq, Repr

/-- The `Book` interface from `src/types/book.ts`. -/
structure Book where
  id : String
  title : String
  author : String
  reviews : List Review
  tags : List String
  coverUrl : String
  dateAdded : DateStamp
  status : ReadingStatus
  progress : Option Nat := none
  totalPages : Option Nat := none
  shelf : Option String := none
deriving DecidableEq, Repr

/-- The `ReadingGoal` record from `src/types/book.ts` / the Prisma schema. -/
structure ReadingGoal where
  year : Int
  target : Nat
  current : Nat
deriving DecidableEq, Repr

/-- `getAverageRating` from `src/types/book.ts`: 0 when there are no
reviews, otherwise the reduce-sum of the ratings divided by the count. -/
def getAverageRating (b : Book) : ℚ :=
  if b.reviews.length = 0 then 0
  else ((b.reviews.foldl (fun acc rv => acc + rv.rating) 0 : Int) : ℚ) / (b.reviews.length : ℚ)

/-- JavaScript `Math.round` on a (nonnegative) rational: floor of `x + 1/2`,
i.e. round-half-up. -/
def roundHalfUp (q : ℚ) : Int := ⌊q + 1/2⌋

/-- Truthiness of an optional JS number: `undefined` and `0` are falsy. -/
def truthyNat : Option Nat → Bool
  | none => false
  | some n => n != 0

/-! ## Aggregate statistics engine (`src/components/ReadingStats.tsx`) -/

/-- `readBooks` in the `ReadingStats` stats memo: books with status `read`. -/
def readBooks (books : List Book) : List Book :=
  books.filter (fun b => b.status == .read)

/-- `readingBooks` in the stats memo: books with status `reading`. -/
def readingBooks (books : List Book) : List Book :=
  books.filter (fun b => b.status == .reading)

/-- `wantToRead` in the stats memo: books with status `want_to_read`. -/
def wantToRead (books : List Book) : List Book :=
  books.filter (fun b => b.status == .want_to_read)

/-- `ratedBooks` in the stats memo: `read` books with at least one review. -/
def ratedBooks (books : List Book) : List Book :=
  (readBooks books).filter (fun b => b.reviews.length != 0)

/-- One `tagCounts[tag] = (tagCounts[tag] || 0) + 1` update on the record,
modelled as an association list in first-seen key order. -/
def bumpTag : List (String × Nat) → String → List (String × Nat)
  | [], t => [(t, 1)]
  | (s, n) :: rest, t => if s = t then (s, n + 1) :: rest else (s, n) :: bumpTag rest t

/-- The `tagCounts` record built by the nested `forEach` loops over all
books and their tags. -/
def tagCounts (books : List Book) : List (String × Nat) :=
  books.foldl (fun acc b => b.tags.foldl bumpTag acc) []

/-- One iteration of the `ratingDist` forEach: round the book's average
rating and, if it lies in 1..5, increment that bucket. -/
def distStep (dist : Int → Nat) (b : Book) : Int → Nat :=
  if 1 ≤ roundHalfUp (getAverageRating b) ∧ roundHalfUp (getAverageRating b) ≤ 5 then
    fun r => if r = roundHalfUp (getAverageRating b) then dist r + 1 else dist r
  else dist

/-- The `ratingDist` record of the stats memo, as a bucket-indexed counter
(all five buckets start at 0). -/
def ratingDist (books : List Book) : Int → Nat :=
  (ratedBooks books).foldl distStep (fun _ => 0)

/-- The `booksByMonth` histogram: `read` books whose `dateAdded` falls in
`currentYear`, bucketed by month. -/
def booksByMonth (currentYear : Int) (books : List Book) : Nat → Nat :=
  (readBooks books).foldl
    (fun hist b =>
      if b.dateAdded.year = currentYear then
        fun m => if m = b.dateAdded.month then hist m + 1 else hist m
      else hist)
    (fun _ => 0)

/-- `topTags`: the tag-count entries sorted descending by count (stable) and
truncated to 5, using the comparator `(a, b) => b[1] - a[1]`. -/
def tagEntryLe (a b : String × Nat) : Bool :=
  decide ((b.2 : Int) - (a.2 : Int) ≤ 0)

/-- `orderedInsert` step of a stable insertion sort with a boolean `le`. -/
def orderedInsertB {α : Type} (le : α → α → Bool) (x : α) : List α → List α
  | [] => [x]
  | y :: ys => if le x y then x :: y :: ys else y :: orderedInsertB le x ys

/-- Stable insertion sort; with `le a b := (comparator a b ≤ 0)` this agrees
with the ECMAScript stable `Array.prototype.sort`. -/
def insertionSortB {α : Type} (le : α → α → Bool) : List α → List α
  | [] => []
  | x :: xs => orderedInsertB le x (insertionSortB le xs)

/-- The aggregate statistics snapshot returned by the stats memo. -/
structure ReadingStatsResult where
  totalRead : Nat
  totalReading : Nat
  totalWantToRead : Nat
  avgRating : ℚ
  totalPages : Nat
  pagesInProgress : Nat
  booksByMonth : Nat → Nat
  topTags : List (String × Nat)
  ratingDist : Int → Nat
  totalReviews : Nat

/-- The body of the `useMemo` stats computation in `ReadingStats.tsx`,
parameterised by the wall-clock year the code reads from `new Date()`. -/
def computeStats (currentYear : Int) (books : List Book) : ReadingStatsResult :=
  { totalRead := (readBooks books).length
    totalReading := (readingBooks books).length
    totalWantToRead := (wantToRead books).length
    avgRating :=
      if (ratedBooks books).length > 0 then
        ((ratedBooks books).foldl (fun sum b => sum + getAverageRating b) 0) /
          ((ratedBooks books).length : ℚ)
      else 0
    totalPages :=
      (((readBooks books).filter (fun b => truthyNat b.totalPages)).foldl
        (fun sum b => sum + b.totalPages.getD 0) 0)
    pagesInProgress :=
      (((readingBooks books).filter (fun b => truthyNat b.progress)).foldl
        (fun sum b => sum + b.progress.getD 0) 0)
    booksByMonth := booksByMonth currentYear books
    topTags := (insertionSortB tagEntryLe (tagCounts books)).take 5
    ratingDist := ratingDist books
    totalReviews := books.foldl (fun sum b => sum + b.reviews.length) 0 }

/-- The stats component invocation viewed as a state transformer on the
collection: it returns its snapshot and the collection as it leaves it
(the computation only reads `books`). -/
def runReadingStats (currentYear : Int) (books : List Book) :
    ReadingStatsResult × List Book :=
  (computeStats currentYear books, books)

/-! ## Filter/sort view builder (`src/App.tsx`, `filteredBooks` memo) -/

/-- Does the character list `s` start with `p`? -/
def startsWithL : List Char → List Char → Bool
  | _, [] => true
  | [], _ :: _ => false
  | c :: s, d :: p => c = d && startsWithL s p

/-- Does `s` contain `p` as a contiguous run?  Model of
`String.prototype.includes`. -/
def containsSub : List Char → List Char → Bool
  | [], p => p.isEmpty
  | c :: t, p => startsWithL (c :: t) p || containsSub t p

/-- `a.includes(b)` on strings. -/
def strIncludes (s sub : String) : Bool := containsSub s.data sub.data

/-- The string form of a status, as it appears in the TS union type. -/
def statusToString : ReadingStatus → String
  | .want_to_read => "want_to_read"
  | .reading => "reading"
  | .read => "read"

/-- The three built-in pseudo-shelf identifiers checked by the shelf
filter. -/
def builtinShelves : List String := ["want_to_read", "reading", "read"]

/-- `SortOption` from `src/App.tsx`. -/
inductive SortOption
  | dateAdded
  | rating
  | title
  | author
deriving DecidableEq, Repr

/-- `SortDirection` from `src/App.tsx`. -/
inductive SortDirection
  | asc
  | desc
deriving DecidableEq, Repr

/-- The six filter/sort inputs of the `filteredBooks` memo.  `statusFilter`
is `ReadingStatus | 'all'` (`none` = `'all'`); `tagFilter` is
`string | null`. -/
structure FilterParams where
  searchQuery : String
  statusFilter : Option ReadingStatus
  shelfFilter : String
  tagFilter : Option String
  sortBy : SortOption
  sortDirection : SortDirection

/-- The search filter: keep books whose lowercased title, author or any tag
contains the lowercased query; skipped when the query is falsy (empty). -/
def searchStep (p : FilterParams) (result : List Book) : List Book :=
  if p.searchQuery ≠ "" then
    let query := p.searchQuery.toLower
    result.filter (fun b =>
      strIncludes b.title.toLower query ||
      strIncludes b.author.toLower query ||
      b.tags.any (fun t => strIncludes t.toLower query))
  else result

/-- The status filter: keep books whose status equals `statusFilter` unless
it is `'all'`. -/
def statusStep (p : FilterParams) (result : List Book) : List Book :=
  match p.statusFilter with
  | some st => result.filter (fun b => b.status == st)
  | none => result

/-- The shelf filter: a non-`'all'`, non-built-in value selects by the
book's custom `shelf` reference; a built-in pseudo-shelf value selects by
status string. -/
def shelfStep (p : FilterParams) (result : List Book) : List Book :=
  if p.shelfFilter ≠ "all" ∧ ¬ builtinShelves.contains p.shelfFilter then
    result.filter (fun b => b.shelf == some p.shelfFilter)
  else if builtinShelves.contains p.shelfFilter then
    result.filter (fun b => statusToString b.status == p.shelfFilter)
  else result

/-- The tag filter: keep books whose tag list contains the (truthy) tag. -/
def tagStep (p : FilterParams) (result : List Book) : List Book :=
  match p.tagFilter with
  | some t => if t ≠ "" then result.filter (fun b => b.tags.contains t) else result
  | none => result

/-- Code-point lexicographic strict order on character lists; the model of
the sign of `localeCompare`. -/
def lexLt : List Char → List Char → Bool
  | [], [] => false
  | [], _ :: _ => true
  | _ :: _, [] => false
  | c :: s, d :: t => if c < d then true else if d < c then false else lexLt s t

/-- The modelled `a.localeCompare(b)` sign: -1, 0 or 1 as a rational. -/
def strCmpQ (s t : String) : ℚ :=
  if lexLt s.data t.data then -1 else if lexLt t.data s.data then 1 else 0

/-- The `comparison` value computed by the sort comparator in
`filteredBooks` for each `sortBy` key. -/
def cmpBook : SortOption → Book → Book → ℚ
  | .dateAdded, a, b => (a.dateAdded.time : ℚ) - (b.dateAdded.time : ℚ)
  | .rating, a, b => getAverageRating a - getAverageRating b
  | .title, a, b => strCmpQ a.title b.title
  | .author, a, b => strCmpQ a.author b.author

/-- The full comparator: `sortDirection === 'asc' ? comparison :
-comparison`. -/
def sortComparator (sb : SortOption) (dir : SortDirection) (a b : Book) : ℚ :=
  match dir with
  | .asc => cmpBook sb a b
  | .desc => -(cmpBook sb a b)

/-- The boolean "a sorts no later than b" relation induced by the
comparator. -/
def sortLe (sb : SortOption) (dir : SortDirection) (a b : Book) : Bool :=
  decide (sortComparator sb dir a b ≤ 0)

/-- `result.sort(comparator)`: the ECMAScript stable sort by the
comparator. -/
def sortBooks (sb : SortOption) (dir : SortDirection) (l : List Book) : List Book :=
  insertionSortB (sortLe sb dir) l

/-- The spread copy `[...books]` taken at the top of the memo. -/
def listSpread (l : List Book) : List Book := l.foldr List.cons []

/-- The `filteredBooks` memo of `src/App.tsx`: copy, four conditional
filters, then sort. -/
def filteredBooks (books : List Book) (p : FilterParams) : List Book :=
  sortBooks p.sortBy p.sortDirection
    (tagStep p (shelfStep p (statusStep p (searchStep p (listSpread books)))))

/-- The view-builder invocation as a state transformer on the collection:
the only in-place mutation in the source (`result.sort`) acts on the
spread copy, so the collection component passes through. -/
def runFilteredBooks (books : List Book) (p : FilterParams) :
    List Book × List Book :=
  (filteredBooks books p, books)

/-! ## Reading-goal synchronizer
(`backend/src/routes/reading-goal.ts`, `POST /api/reading-goal/sync`;
this router is the one mounted on `/api/reading-goal` in
`backend/src/index.ts`). -/

/-- `prisma.book.count({ where: { status: 'read' } })`. -/
def totalBooksRead (books : List Book) : Nat :=
  (books.filter (fun b => b.status == .read)).length

/-- `prisma.readingGoal.findUnique({ where: { year } })` over the goals
table. -/
def findGoal (db : List ReadingGoal) (year : Int) : Option ReadingGoal :=
  db.find? (fun g => g.year == year)

/-- The body of `POST /api/reading-goal/sync`: count all `read` books, then
upsert the goal row for the current year (update `current` only, or create
with the default target 24).  Returns the goals table afterwards and the
row the route responds with. -/
def syncRoute (books : List Book) (db : List ReadingGoal) (currentYear : Int) :
    List ReadingGoal × ReadingGoal :=
  let total := totalBooksRead books
  match findGoal db currentYear with
  | some g =>
      (db.map (fun h => if h.year == currentYear then { h with current := total } else h),
        { g with current := total })
  | none =>
      let created : ReadingGoal := { year := currentYear, target := 24, current := total }
      (db ++ [created], created)

/-! ## Status change (`src/App.tsx`, `handleChangeStatus` →
`api.updateBook` → backend `PUT /api/books/:id`). -/

/-- A `Partial<Book>` as constructed by `handleChangeStatus`: `none` means
the key is absent, `some none` means the key is present with value
`undefined`. -/
structure BookUpdate where
  status : Option ReadingStatus := none
  progress : Option (Option Nat) := none
deriving DecidableEq, Repr

/-- The `updates` object built by `handleChangeStatus`: always the new
status; `progress = book.totalPages` when marking as read with truthy
`totalPages`; `progress = undefined` when marking as want-to-read. -/
def handleChangeStatusUpdates (b : Book) (st : ReadingStatus) : BookUpdate :=
  let u : BookUpdate := { status := some st }
  let u := if st = .read ∧ truthyNat b.totalPages then
      { u with progress := some b.totalPages } else u
  if st = .want_to_read then { u with progress := some none } else u

/-- `JSON.stringify` in `api.updateBook` drops keys whose value is
`undefined`, so a present-but-`undefined` `progress` never reaches the
backend. -/
def jsonRoundTrip (u : BookUpdate) : BookUpdate :=
  { status := u.status
    progress := match u.progress with
      | some none => none
      | x => x }

/-- The backend `PUT /api/books/:id` merge: each field is written only when
`updates.field !== undefined`. -/
def applyBookUpdate (b : Book) (u : BookUpdate) : Book :=
  { b with
    status := u.status.getD b.status
    progress := match u.progress with
      | none => b.progress
      | some p => p }

/-- The end-to-end status-change operation on a stored book. -/
def changeStatus (b : Book) (st : ReadingStatus) : Book :=
  applyBookUpdate b (jsonRoundTrip (handleChangeStatusUpdates b st))

/-! ## Claim-side definitions (wording of the specification) -/

/-- Clamping an integer to the range 1–5, as the specification's wording of
`ratingDistribution` describes. -/
def clamp15 (k : Int) : Int := max 1 (min 5 k)

/-- The validation-layer precondition the spec states for review ratings:
every rating is in 1..5. -/
def validRatings (books : List Book) : Prop :=
  ∀ b ∈ books, ∀ rv ∈ b.reviews, 1 ≤ rv.rating ∧ rv.rating ≤ 5

/-! ## Concrete sample data used by witnesses and counterexamples -/

/-- A sample review with the given id and rating. -/
def mkReview (i : String) (r : Int) : Review :=
  { id := i, content := "c", rating := r, dateAdded := "2024-01-01" }

/-- A sample book with the given id, status, review ratings and time. -/
def mkBook (i : String) (st : ReadingStatus) (ratings : List Int) (t : Int) : Book :=
  { id := i, title := i, author := "A", reviews := ratings.map (mkReview i),
    tags := [], coverUrl := "", dateAdded := ⟨2024, 0, t⟩, status := st }

/-- A currently-being-read book carrying one 5-star review. -/
def reviewedReadingBook : Book := mkBook "b-reading" .reading [5] 0

/-- A read book with a single 5-star review. -/
def readBookFive : Book := mkBook "b-five" .read [5] 0

/-- A read book with a single 3-star review. -/
def readBookThree : Book := mkBook "b-three" .read [3] 1

/-- A want-to-read book with no reviews. -/
def wantBookNoReviews : Book := mkBook "b-want" .want_to_read [] 2

/-- Two review-less books used to exhibit a sorting tie. -/
def tieBook1 : Book := mkBook "tie-1" .read [] 0

/-- Second of the two tied books; only the id differs. -/
def tieBook2 : Book := mkBook "tie-2" .read [] 0

/-- A reading book with stored progress 120 of 300 pages. -/
def progressBook : Book :=
  { mkBook "b-progress" .reading [] 0 with progress := some 120, totalPages := some 300 }

/-! ## General-purpose lemmas -/

/-- Inserting with `orderedInsertB` is a permutation of consing. -/
theorem orderedInsertB_perm {α : Type} (le : α → α → Bool) (x : α) :
    ∀ l : List α, List.Perm (orderedInsertB le x l) (x :: l) := by
  intro l
  induction l with
  | nil => exact List.Perm.refl _
  | cons y ys ih =>
    unfold orderedInsertB
    by_cases h : le x y
    · simp [h]
    · simp only [h, Bool.false_eq_true, if_false]
      exact (ih.cons y).trans (List.Perm.swap x y ys)

/-- `insertionSortB` permutes its input. -/
theorem insertionSortB_perm {α : Type} (le : α → α → Bool) :
    ∀ l : List α, List.Perm (insertionSortB le l) l := by
  intro l
  induction l with
  | nil => exact List.Perm.refl _
  | cons x xs ih =>
    exact (orderedInsertB_perm le x _).trans (ih.cons x)

/-- The spread copy is the same list. -/
theorem listSpread_eq (l : List Book) : listSpread l = l := by
  induction l with
  | nil => rfl
  | cons b t ih => simp only [listSpread, List.foldr] at ih ⊢; exact congrArg (b :: ·) ih

/-- The search step of the view builder produces a sublist. -/
theorem searchStep_sublist (p : FilterParams) (l : List Book) :
    List.Sublist (searchStep p l) l := by
  unfold searchStep
  split
  · exact List.filter_sublist l
  · exact List.Sublist.refl l

/-- The status step produces a sublist. -/
theorem statusStep_sublist (p : FilterParams) (l : List Book) :
    List.Sublist (statusStep p l) l := by
  unfold statusStep
  split
  · exact List.filter_sublist l
  · exact List.Sublist.refl l

/-- The shelf step produces a sublist. -/
theorem shelfStep_sublist (p : FilterParams) (l : List Book) :
    List.Sublist (shelfStep p l) l := by
  unfold shelfStep
  split
  · exact List.filter_sublist l
  · split
    · exact List.filter_sublist l
    · exact List.Sublist.refl l

/-- The tag step produces a sublist. -/
theorem tagStep_sublist (p : FilterParams) (l : List Book) :
    List.Sublist (tagStep p l) l := by
  unfold tagStep
  split
  · split
    · exact List.filter_sublist _
    · exact List.Sublist.refl _
  · exact List.Sublist.refl l

/-- The tag step maps the empty list to the empty list. -/
theorem tagStep_nil (p : FilterParams) : tagStep p [] = [] :=
  List.sublist_nil.mp (tagStep_sublist p [])

/-- Adding one tag occurrence raises the total count by one. -/
theorem bumpTag_sum (acc : List (String × Nat)) (t : String) :
    ((bumpTag acc t).map Prod.snd).sum = ((acc.map Prod.snd).sum) + 1 := by
  induction acc with
  | nil => rfl
  | cons q rest ih =>
    obtain ⟨s, n⟩ := q
    unfold bumpTag
    by_cases h : s = t
    · simp only [h, if_pos, List.map_cons, List.sum_cons]
      omega
    · simp only [h, if_neg, List.map_cons, List.sum_cons, not_false_iff, ih]
      omega

/-- Folding a tag list into the counter record adds its length to the
total. -/
theorem foldTags_sum (ts : List String) : ∀ acc : List (String × Nat),
    (((ts.foldl bumpTag acc).map Prod.snd).sum) = (acc.map Prod.snd).sum + ts.length := by
  induction ts with
  | nil => intro acc; simp
  | cons t ts ih =>
    intro acc
    simp only [List.foldl_cons, ih, bumpTag_sum, List.length_cons]
    omega

/-- C8. The per-tag counts in the statistics engine's `tagCounts` record
sum to the total number of tag occurrences over all books, regardless of
status. -/
theorem tagFrequency_sum (books : List Book) :
    ((tagCounts books).map Prod.snd).sum = (books.map (fun b => b.tags.length)).sum := by
  suffices h : ∀ acc : List (String × Nat),
      ((books.foldl (fun acc b => b.tags.foldl bumpTag acc) acc).map Prod.snd).sum
        = (acc.map Prod.snd).sum + (books.map (fun b => b.tags.length)).sum by
    simpa [tagCounts] using h []
  induction books with
  | nil => intro acc; simp
  | cons b bs ih =>
    intro acc
    simp only [List.foldl_cons, ih, foldTags_sum, List.map_cons, List.sum_cons]
    omega

/-- C10. The three `countByStatus` buckets of the statistics engine
partition the collection: every book has exactly one of the three statuses,
so the three counts sum to the collection size. -/
theorem countByStatus_partition (books : List Book) :
    (readBooks books).length + (readingBooks books).length + (wantToRead books).length
      = books.length := by
  induction books with
  | nil => rfl
  | cons b l ih =>
    simp only [readBooks, readingBooks, wantToRead, List.filter_cons] at ih ⊢
    cases h : b.status <;> simp [h] <;> omega

/-- Unfolding `List.find?` over a cons cell. -/
theorem find?_cons_ite {α : Type} (p : α → Bool) (a : α) (l : List α) :
    List.find? p (a :: l) = if p a then some a else List.find? p l := by
  cases h : p a <;> simp [List.find?, h]

/-- Updating the matching rows of the goals table moves `findGoal` to the
updated row. -/
theorem findGoal_map_update (db : List ReadingGoal) (year : Int) (total : Nat)
    (g : ReadingGoal) (h : findGoal db year = some g) :
    findGoal (db.map (fun x => if x.year == year then { x with current := total } else x)) year
      = some { g with current := total } := by
  induction db with
  | nil => simp [findGoal] at h
  | cons x xs ih =>
    rw [findGoal, find?_cons_ite] at h
    by_cases hx : (x.year == year) = true
    · rw [if_pos hx] at h
      have hg : g = x := by cases h; rfl
      subst hg
      rw [List.map_cons, if_pos hx, findGoal, find?_cons_ite, if_pos hx]
    · rw [if_neg (by simpa using hx)] at h
      have ih' := ih h
      rw [List.map_cons, if_neg (by simpa using hx), findGoal, find?_cons_ite,
        if_neg (by simpa using hx)]
      exact ih'

/-- When no row matches, appending the created row makes `findGoal` return
it. -/
theorem findGoal_append_created (db : List ReadingGoal) (year : Int) (g : ReadingGoal)
    (hnone : findGoal db year = none) (hg : (g.year == year) = true) :
    findGoal (db ++ [g]) year = some g := by
  induction db with
  | nil => rw [List.nil_append, findGoal, find?_cons_ite, if_pos hg]
  | cons x xs ih =>
    rw [findGoal, find?_cons_ite] at hnone
    by_cases hx : (x.year == year) = true
    · rw [if_pos hx] at hnone; cases hnone
    · rw [if_neg (by simpa using hx)] at hnone
      rw [List.cons_append, findGoal, find?_cons_ite, if_neg (by simpa using hx)]
      exact ih hnone

/-- C2. After the mounted `POST /api/reading-goal/sync` route runs, the
stored goal row for the year holds `current` equal to the count of all
`read` books (not year-restricted); if no row existed one is created with
the default `target` 24; with zero read books and no prior row the created
row is `{year, target := 24, current := 0}`. -/
theorem syncGoal_correct (books : List Book) (db : List ReadingGoal) (year : Int) :
    findGoal (syncRoute books db year).1 year = some (syncRoute books db year).2
    ∧ (syncRoute books db year).2.current = totalBooksRead books
    ∧ (findGoal db year = none →
        (syncRoute books db year).2 = ⟨year, 24, totalBooksRead books⟩) := by
  cases hfind : findGoal db year with
  | some g =>
    refine ⟨?_, ?_, ?_⟩
    · simp only [syncRoute, hfind]
      exact findGoal_map_update db year (totalBooksRead books) g hfind
    · simp [syncRoute, hfind]
    · intro hnone; cases hnone
  | none =>
    refine ⟨?_, ?_, ?_⟩
    · simp only [syncRoute, hfind]
      exact findGoal_append_created db year _ hfind (by simp)
    · simp [syncRoute, hfind]
    · intro _; simp [syncRoute, hfind]

/-- Witness for C2: syncing an empty library against an empty goals table
creates the row `{year := 2025, target := 24, current := 0}` and the route
reports it. -/
theorem syncGoal_correct_witness :
    findGoal (syncRoute [] [] 2025).1 2025 = some ⟨2025, 24, 0⟩
    ∧ (syncRoute [] [] 2025).2 = ⟨2025, 24, 0⟩ := by
  have h := syncGoal_correct [] [] 2025
  have h3 : (syncRoute [] [] 2025).2 = ⟨2025, 24, 0⟩ := h.2.2 rfl
  exact ⟨h3 ▸ h.1, h3⟩

/-- C5. With `statusFilter = reading` and `shelfFilter = read` the view
builder always yields the empty list: the two predicates are applied
independently as a logical AND and contradict each other. -/
theorem statusShelfDisagree_empty (books : List Book) (q : String)
    (tf : Option String) (sb : SortOption) (dir : SortDirection) :
    filteredBooks books ⟨q, some .reading, "read", tf, sb, dir⟩ = [] := by
  have hshelf : ∀ X : List Book,
      shelfStep ⟨q, some .reading, "read", tf, sb, dir⟩
        (statusStep ⟨q, some .reading, "read", tf, sb, dir⟩ X) = [] := by
    intro X
    rw [show statusStep ⟨q, some .reading, "read", tf, sb, dir⟩ X
          = X.filter (fun b => b.status == ReadingStatus.reading) from rfl]
    rw [shelfStep, if_neg ?hc, if_pos ?hb]
    case hc =>
      show ¬ (("read" : String) ≠ "all" ∧ ¬ builtinShelves.contains "read")
      decide
    case hb =>
      show builtinShelves.contains "read" = true
      decide
    rw [List.filter_filter]
    apply List.filter_eq_nil_iff.mpr
    intro b _
    cases hb : b.status <;> simp [statusToString, hb]
  show sortBooks sb dir
      (tagStep ⟨q, some .reading, "read", tf, sb, dir⟩
        (shelfStep ⟨q, some .reading, "read", tf, sb, dir⟩
          (statusStep ⟨q, some .reading, "read", tf, sb, dir⟩
            (searchStep ⟨q, some .reading, "read", tf, sb, dir⟩ (listSpread books))))) = []
  rw [hshelf, tagStep_nil]
  rfl

/-- C6. The view builder never duplicates or fabricates books: every book
value occurs in the output at most as often as in the input (hence the
output is a subset of the input preserving identity). -/
theorem viewBuilder_count_le (books : List Book) (p : FilterParams) (b : Book) :
    (filteredBooks books p).count b ≤ books.count b := by
  have hperm := insertionSortB_perm (sortLe p.sortBy p.sortDirection)
      (tagStep p (shelfStep p (statusStep p (searchStep p (listSpread books)))))
  have h5 : List.Sublist (listSpread books) books := by rw [listSpread_eq]
  have hsub : List.Sublist
      (tagStep p (shelfStep p (statusStep p (searchStep p (listSpread books))))) books :=
    ((((tagStep_sublist p _).trans (shelfStep_sublist p _)).trans
      (statusStep_sublist p _)).trans (searchStep_sublist p _)).trans h5
  calc (filteredBooks books p).count b
      = (tagStep p (shelfStep p (statusStep p (searchStep p (listSpread books))))).count b :=
        hperm.count_eq b
    _ ≤ books.count b := hsub.count_le b

/-- C9. Both derived-view components are state-preserving: invoked as state
transformers on the collection they return it untouched, and the spread
copy taken by the view builder holds the same books in the same order. -/
theorem components_preserve_input (books : List Book) (p : FilterParams) (year : Int) :
    (runFilteredBooks books p).2 = books
    ∧ (runReadingStats year books).2 = books
    ∧ listSpread books = books :=
  ⟨rfl, rfl, listSpread_eq books⟩

/-- The reduce in `getAverageRating` computes the sum of the ratings. -/
theorem foldl_add_ratings : ∀ (l : List Review) (init : Int),
    l.foldl (fun acc rv => acc + rv.rating) init
      = init + (l.map (fun rv => rv.rating)).sum := by
  intro l
  induction l with
  | nil => intro init; simp
  | cons rv t ih =>
    intro init
    simp only [List.foldl_cons, ih, List.map_cons, List.sum_cons]
    ring

/-- A list of ratings all in 1..5 sums to between `length` and
`5 * length`. -/
theorem ratings_sum_bounds (l : List Review)
    (h : ∀ rv ∈ l, 1 ≤ rv.rating ∧ rv.rating ≤ 5) :
    (l.length : Int) ≤ (l.map (fun rv => rv.rating)).sum
      ∧ (l.map (fun rv => rv.rating)).sum ≤ 5 * l.length := by
  induction l with
  | nil => simp
  | cons rv t ih =>
    have hrv := h rv (List.mem_cons_self rv t)
    have ht := ih (fun x hx => h x (List.mem_cons_of_mem rv hx))
    simp only [List.map_cons, List.sum_cons, List.length_cons]
    push_cast
    omega

/-- With validated ratings and at least one review, the average rating lies
in [1, 5]. -/
theorem getAverageRating_bounds (b : Book)
    (h : ∀ rv ∈ b.reviews, 1 ≤ rv.rating ∧ rv.rating ≤ 5)
    (hne : b.reviews.length ≠ 0) :
    1 ≤ getAverageRating b ∧ getAverageRating b ≤ 5 := by
  obtain ⟨hs1, hs2⟩ := ratings_sum_bounds b.reviews h
  have hn : (0 : ℚ) < (b.reviews.length : ℚ) := by
    exact_mod_cast Nat.pos_of_ne_zero hne
  have hsq1 : ((b.reviews.length : ℚ)) ≤ (((b.reviews.map (fun rv => rv.rating)).sum : Int) : ℚ) := by
    exact_mod_cast hs1
  have hsq2 : (((b.reviews.map (fun rv => rv.rating)).sum : Int) : ℚ)
      ≤ 5 * (b.reviews.length : ℚ) := by
    exact_mod_cast hs2
  rw [getAverageRating, if_neg hne, foldl_add_ratings, zero_add]
  constructor
  · rw [one_le_div hn]
    exact hsq1
  · rw [div_le_iff₀ hn]
    linarith

/-- C4. `getAverageRating` is the arithmetic mean of the review ratings, is
exactly 0 (never undefined) on a review-less book, and under validated
ratings always lies in [0, 5]. -/
theorem averageRating_spec (b : Book)
    (h : ∀ rv ∈ b.reviews, 1 ≤ rv.rating ∧ rv.rating ≤ 5) :
    (b.reviews = [] → getAverageRating b = 0)
    ∧ (b.reviews ≠ [] →
        getAverageRating b * (b.reviews.length : ℚ)
          = (((b.reviews.map (fun rv => rv.rating)).sum : Int) : ℚ))
    ∧ 0 ≤ getAverageRating b ∧ getAverageRating b ≤ 5 := by
  refine ⟨?_, ?_, ?_⟩
  · intro he
    rw [getAverageRating, if_pos (by rw [he]; rfl)]
  · intro hne
    have hlen : b.reviews.length ≠ 0 := fun h0 => hne (List.length_eq_zero.mp h0)
    have hnq : ((b.reviews.length : ℚ)) ≠ 0 := by
      exact_mod_cast hlen
    rw [getAverageRating, if_neg hlen, foldl_add_ratings, zero_add,
      div_mul_cancel₀ _ hnq]
  · by_cases hne : b.reviews.length = 0
    · rw [getAverageRating, if_pos hne]
      norm_num
    · obtain ⟨h1, h5⟩ := getAverageRating_bounds b h hne
      exact ⟨le_trans zero_le_one h1, h5⟩

/-- Witness for C4 at a concrete book with one 5-star review. -/
theorem averageRating_spec_witness :
    0 ≤ getAverageRating readBookFive ∧ getAverageRating readBookFive ≤ 5 :=
  (averageRating_spec readBookFive (by decide)).2.2

/-- The `ratingDist` fold counts, per bucket, the books whose rounded
average lands in that bucket (and inside the guard range). -/
theorem distFold_count (l : List Book) : ∀ (init : Int → Nat) (r : Int),
    (l.foldl distStep init) r
      = init r + l.countP (fun b =>
          decide (1 ≤ roundHalfUp (getAverageRating b)
            ∧ roundHalfUp (getAverageRating b) ≤ 5
            ∧ r = roundHalfUp (getAverageRating b))) := by
  induction l with
  | nil => intro init r; simp
  | cons b t ih =>
    intro init r
    rw [List.foldl_cons, ih (distStep init b) r, List.countP_cons]
    by_cases hk : 1 ≤ roundHalfUp (getAverageRating b) ∧ roundHalfUp (getAverageRating b) ≤ 5
    · by_cases hr : r = roundHalfUp (getAverageRating b)
      · have hd : distStep init b r = init r + 1 := by
          rw [distStep, if_pos hk, if_pos hr]
        rw [hd]
        have hp : decide (1 ≤ roundHalfUp (getAverageRating b)
            ∧ roundHalfUp (getAverageRating b) ≤ 5
            ∧ r = roundHalfUp (getAverageRating b)) = true := by
          simp [hk.1, hk.2, hr]
        rw [hp]
        simp only [if_true]
        omega
      · have hd : distStep init b r = init r := by
          rw [distStep, if_pos hk, if_neg hr]
        rw [hd]
        have hp : decide (1 ≤ roundHalfUp (getAverageRating b)
            ∧ roundHalfUp (getAverageRating b) ≤ 5
            ∧ r = roundHalfUp (getAverageRating b)) = false := by
          simp [hr]
        rw [hp]
        simp
    · have hd : distStep init b r = init r := by
        rw [distStep, if_neg hk]
      rw [hd]
      have hp : decide (1 ≤ roundHalfUp (getAverageRating b)
          ∧ roundHalfUp (getAverageRating b) ≤ 5
          ∧ r = roundHalfUp (getAverageRating b)) = false := by
        simpa using fun h1 h5 _ => hk ⟨h1, h5⟩
      rw [hp]
      simp

/-- With validated ratings and at least one review, the rounded average
already lies in 1..5 (so the guard in the code never drops such a book and
the spec's clamp never alters the value). -/
theorem roundHalfUp_avg_bounds (b : Book)
    (h : ∀ rv ∈ b.reviews, 1 ≤ rv.rating ∧ rv.rating ≤ 5)
    (hne : b.reviews.length ≠ 0) :
    1 ≤ roundHalfUp (getAverageRating b) ∧ roundHalfUp (getAverageRating b) ≤ 5 := by
  obtain ⟨h1, h5⟩ := getAverageRating_bounds b h hne
  constructor
  · rw [roundHalfUp]
    exact Int.le_floor.mpr (by push_cast; linarith)
  · rw [roundHalfUp]
    have hlt : (⌊getAverageRating b + 1/2⌋ : Int) < 6 :=
      Int.floor_lt.mpr (by push_cast; linarith)
    omega

/-- C1 (amended). For books with status `read` and at least one review,
`ratingDist` buckets each book into exactly the counter keyed by the
clamped round-half-up average; under validated ratings the clamp is the
identity so each such book lands in exactly one of the five counters. -/
theorem ratingDistribution_amended (books : List Book) (h : validRatings books)
    (r : Int) (hr1 : 1 ≤ r) (hr5 : r ≤ 5) :
    ratingDist books r
      = ((ratedBooks books).filter
          (fun b => clamp15 (roundHalfUp (getAverageRating b)) == r)).length := by
  rw [ratingDist, distFold_count (ratedBooks books) (fun _ => 0) r,
    ← List.countP_eq_length_filter]
  rw [Nat.zero_add]
  apply List.countP_congr
  intro b hb
  have hsplit := List.mem_filter.mp hb
  have hsplit2 := List.mem_filter.mp hsplit.1
  have hmem : b ∈ books := hsplit2.1
  have hne : b.reviews.length ≠ 0 := by simpa using hsplit.2
  obtain ⟨hk1, hk5⟩ := roundHalfUp_avg_bounds b (h b hmem) hne
  have hc : clamp15 (roundHalfUp (getAverageRating b))
      = roundHalfUp (getAverageRating b) := by
    rw [clamp15]; omega
  rw [hc]
  by_cases hkr : roundHalfUp (getAverageRating b) = r
  · simp only [hkr]
    simp [hr1, hr5]
  · simp only [decide_eq_true_eq]
    simp [hkr]
    intro _ _ hrk
    exact hkr hrk.symm

/-- Counterexample for C1 as stated: a book with status `reading` carrying
one 5-star review is never bucketed by the code (its `ratingDist` bucket 5
stays 0), although the claim's "every book having at least one review"
demands it be counted there. -/
theorem ratingDistribution_counterexample :
    ratingDist [reviewedReadingBook] 5
      ≠ (([reviewedReadingBook].filter (fun b => b.reviews.length != 0)).filter
          (fun b => clamp15 (roundHalfUp (getAverageRating b)) == 5)).length := by
  have hL : ratingDist [reviewedReadingBook] 5 = 0 := rfl
  have havg : getAverageRating reviewedReadingBook = 5 := by
    norm_num [getAverageRating, reviewedReadingBook, mkBook, mkReview]
  have hround : roundHalfUp (getAverageRating reviewedReadingBook) = 5 := by
    rw [havg, roundHalfUp, Int.floor_eq_iff]
    norm_num
  have hclamp : clamp15 (roundHalfUp (getAverageRating reviewedReadingBook)) = 5 := by
    rw [hround]; rfl
  have hfil : [reviewedReadingBook].filter (fun b => b.reviews.length != 0)
      = [reviewedReadingBook] := rfl
  have hR : (([reviewedReadingBook].filter (fun b => b.reviews.length != 0)).filter
      (fun b => clamp15 (roundHalfUp (getAverageRating b)) == 5)).length = 1 := by
    rw [hfil]
    simp [List.filter, hclamp]
  rw [hL, hR]
  omega

/-- Witness for the amended C1 at the spec's scenario collection (two read
books rated 5 and 3, one want-to-read book with no reviews), bucket 5. -/
theorem ratingDistribution_amended_witness :
    ratingDist [readBookFive, readBookThree, wantBookNoReviews] 5
      = ((ratedBooks [readBookFive, readBookThree, wantBookNoReviews]).filter
          (fun b => clamp15 (roundHalfUp (getAverageRating b)) == 5)).length :=
  ratingDistribution_amended [readBookFive, readBookThree, wantBookNoReviews]
    (by unfold validRatings; decide) 5 (by decide) (by decide)

/-- C7 evaluation. On a reading book with `progress = 120`,
`totalPages = 300`: marking as read forces progress to 300 and marking as
reading leaves it untouched, as claimed; but marking as want-to-read does
NOT clear progress — `updates.progress = undefined` is dropped by
`JSON.stringify` and the backend `PUT` only assigns fields that are
`!== undefined`, so the stored progress stays 120. -/
theorem changeStatus_progress_eval :
    (changeStatus progressBook ReadingStatus.want_to_read).progress = some 120
    ∧ (changeStatus progressBook ReadingStatus.read).progress = some 300
    ∧ (changeStatus progressBook ReadingStatus.reading).progress = some 120 :=
  ⟨rfl, rfl, rfl⟩

/-- Lexicographic strict order is asymmetric. -/
theorem lexLt_asymm : ∀ s t : List Char, lexLt s t = true → lexLt t s = false := by
  intro s
  induction s with
  | nil =>
    intro t h
    cases t with
    | nil => simp [lexLt] at h
    | cons d t => simp [lexLt]
  | cons c s ih =>
    intro t h
    cases t with
    | nil => simp [lexLt] at h
    | cons d t =>
      by_cases hcd : c < d
      · simp [lexLt, hcd, asymm hcd]
      · by_cases hdc : d < c
        · simp [lexLt, hcd, hdc] at h
        · simp only [lexLt, hcd, hdc, if_false] at h
          simp [lexLt, hcd, hdc, ih t h]

/-- Lexicographic strict order is transitive. -/
theorem lexLt_trans : ∀ s t u : List Char,
    lexLt s t = true → lexLt t u = true → lexLt s u = true := by
  intro s
  induction s with
  | nil =>
    intro t u h1 h2
    cases t with
    | nil => simp [lexLt] at h1
    | cons d t =>
      cases u with
      | nil => simp [lexLt] at h2
      | cons e u => simp [lexLt]
  | cons c s ih =>
    intro t u h1 h2
    cases t with
    | nil => simp [lexLt] at h1
    | cons d t =>
      cases u with
      | nil => simp [lexLt] at h2
      | cons e u =>
        rcases lt_trichotomy c d with hcd | hcd | hcd
        · rcases lt_trichotomy d e with hde | hde | hde
          · have : c < e := lt_trans hcd hde
            simp [lexLt, this]
          · subst hde
            simp [lexLt, hcd]
          · exfalso
            simp [lexLt, asymm hde, hde] at h2
        · subst hcd
          rcases lt_trichotomy c e with hde | hde | hde
          · simp [lexLt, hde]
          · subst hde
            simp only [lexLt, lt_irrefl, if_false] at h1 h2 ⊢
            exact ih t u h1 h2
          · exfalso
            simp [lexLt, asymm hde, hde] at h2
        · exfalso
          simp [lexLt, asymm hcd, hcd] at h1

/-- Two lists neither of which lexicographically precedes the other are
equal. -/
theorem lexLt_connex : ∀ s t : List Char,
    lexLt s t = false → lexLt t s = false → s = t := by
  intro s
  induction s with
  | nil =>
    intro t h1 _
    cases t with
    | nil => rfl
    | cons d t => simp [lexLt] at h1
  | cons c s ih =>
    intro t h1 h2
    cases t with
    | nil => simp [lexLt] at h2
    | cons d t =>
      by_cases hcd : c < d
      · simp [lexLt, hcd] at h1
      · by_cases hdc : d < c
        · simp [lexLt, hdc] at h2
        · have hce : c = d := le_antisymm (not_lt.mp hdc) (not_lt.mp hcd)
          subst hce
          simp only [lexLt, lt_irrefl, if_false] at h1 h2
          rw [ih t h1 h2]

/-- The modelled `localeCompare` sign is antisymmetric. -/
theorem strCmpQ_neg (s t : String) : strCmpQ t s = -(strCmpQ s t) := by
  unfold strCmpQ
  by_cases h1 : lexLt s.data t.data = true
  · have h2 := lexLt_asymm _ _ h1
    simp [h1, h2]
  · by_cases h2 : lexLt t.data s.data = true
    · simp [h1, h2]
    · simp [h1, h2]

/-- The modelled `localeCompare` sign is nonpositive exactly when the right
string does not precede the left one. -/
theorem strCmpQ_nonpos_iff (s t : String) :
    strCmpQ s t ≤ 0 ↔ lexLt t.data s.data = false := by
  unfold strCmpQ
  by_cases h1 : lexLt s.data t.data = true
  · have h2 := lexLt_asymm _ _ h1
    simp [h1, h2]
  · by_cases h2 : lexLt t.data s.data = true
    · simp [h1, h2]
    · simp [h1, h2]

/-- The modelled `localeCompare` order is transitive. -/
theorem strCmpQ_trans (a b c : String) (h1 : strCmpQ a b ≤ 0) (h2 : strCmpQ b c ≤ 0) :
    strCmpQ a c ≤ 0 := by
  rw [strCmpQ_nonpos_iff] at h1 h2 ⊢
  by_contra hca
  have hca' : lexLt c.data a.data = true := by
    cases h : lexLt c.data a.data with
    | true => rfl
    | false => exact absurd h hca
  by_cases hab : lexLt a.data b.data = true
  · have := lexLt_trans _ _ _ hca' hab
    rw [this] at h2
    cases h2
  · have hfalse : lexLt a.data b.data = false := by
      cases h : lexLt a.data b.data with
      | true => exact absurd h hab
      | false => rfl
    have heq : a.data = b.data := lexLt_connex _ _ hfalse h1
    rw [heq] at hca'
    rw [hca'] at h2
    cases h2

/-- Swapping the comparator's arguments negates it, for every sort key. -/
theorem cmpBook_neg (sb : SortOption) (a b : Book) :
    cmpBook sb b a = -(cmpBook sb a b) := by
  cases sb
  · show (b.dateAdded.time : ℚ) - a.dateAdded.time = -((a.dateAdded.time : ℚ) - b.dateAdded.time)
    ring
  · show getAverageRating b - getAverageRating a = -(getAverageRating a - getAverageRating b)
    ring
  · exact strCmpQ_neg a.title b.title
  · exact strCmpQ_neg a.author b.author

/-- The comparator's induced "sorts no later" relation is transitive. -/
theorem cmpBook_trans (sb : SortOption) (a b c : Book)
    (h1 : cmpBook sb a b ≤ 0) (h2 : cmpBook sb b c ≤ 0) : cmpBook sb a c ≤ 0 := by
  cases sb
  · simp only [cmpBook] at h1 h2 ⊢
    linarith
  · simp only [cmpBook] at h1 h2 ⊢
    linarith
  · exact strCmpQ_trans _ _ _ h1 h2
  · exact strCmpQ_trans _ _ _ h1 h2

/-- `orderedInsertB` preserves sortedness for a total transitive boolean
relation. -/
theorem pairwise_orderedInsertB {α : Type} (le : α → α → Bool)
    (htot : ∀ a b, le a b = true ∨ le b a = true)
    (htrans : ∀ a b c, le a b = true → le b c = true → le a c = true)
    (x : α) : ∀ l : List α, List.Pairwise (fun a b => le a b = true) l →
    List.Pairwise (fun a b => le a b = true) (orderedInsertB le x l) := by
  intro l
  induction l with
  | nil => intro _; simp [orderedInsertB]
  | cons y ys ih =>
    intro hl
    obtain ⟨hy, hys⟩ := List.pairwise_cons.mp hl
    unfold orderedInsertB
    by_cases h : le x y = true
    · rw [if_pos h]
      refine List.pairwise_cons.mpr ⟨?_, hl⟩
      intro z hz
      rcases List.mem_cons.mp hz with hz | hz
      · rw [hz]; exact h
      · exact htrans x y z h (hy z hz)
    · rw [if_neg (by simpa using h)]
      refine List.pairwise_cons.mpr ⟨?_, ih hys⟩
      intro z hz
      have hz' := (orderedInsertB_perm le x ys).mem_iff.mp hz
      rcases List.mem_cons.mp hz' with hz' | hz'
      · rw [hz']
        rcases htot x y with hxy | hyx
        · exact absurd hxy h
        · exact hyx
      · exact hy z hz'

/-- `insertionSortB` sorts, for a total transitive boolean relation. -/
theorem pairwise_insertionSortB {α : Type} (le : α → α → Bool)
    (htot : ∀ a b, le a b = true ∨ le b a = true)
    (htrans : ∀ a b c, le a b = true → le b c = true → le a c = true) :
    ∀ l : List α, List.Pairwise (fun a b => le a b = true) (insertionSortB le l) := by
  intro l
  induction l with
  | nil => simp [insertionSortB]
  | cons x xs ih => exact pairwise_orderedInsertB le htot htrans x _ ih

/-- Two sorted permutations of each other are equal, needing antisymmetry
only on the members of the lists. -/
theorem eq_of_perm_of_pairwise {α : Type} (P : α → α → Prop) :
    ∀ (l₁ l₂ : List α), List.Perm l₁ l₂ → List.Pairwise P l₁ → List.Pairwise P l₂ →
      (∀ a ∈ l₁, ∀ b ∈ l₁, P a b → P b a → a = b) → l₁ = l₂ := by
  intro l₁
  induction l₁ with
  | nil =>
    intro l₂ hp _ _ _
    exact hp.nil_eq
  | cons a t₁ ih =>
    intro l₂ hp hs₁ hs₂ hanti
    cases l₂ with
    | nil => cases hp.symm.nil_eq
    | cons b t₂ =>
      have hab : a = b := by
        by_contra hne
        have ha2 : a ∈ b :: t₂ := hp.subset (List.mem_cons_self a t₁)
        have hb1 : b ∈ a :: t₁ := hp.symm.subset (List.mem_cons_self b t₂)
        have ha2' : a ∈ t₂ := by
          rcases List.mem_cons.mp ha2 with h | h
          · exact absurd h hne
          · exact h
        have hb1' : b ∈ t₁ := by
          rcases List.mem_cons.mp hb1 with h | h
          · exact absurd h.symm hne
          · exact h
        have hPab : P a b := (List.pairwise_cons.mp hs₁).1 b hb1'
        have hPba : P b a := (List.pairwise_cons.mp hs₂).1 a ha2'
        exact hne (hanti a (List.mem_cons_self a t₁) b hb1 hPab hPba)
      subst hab
      have hp' : List.Perm t₁ t₂ := (List.perm_cons a).mp hp
      have ht : t₁ = t₂ :=
        ih t₂ hp' (List.pairwise_cons.mp hs₁).2 (List.pairwise_cons.mp hs₂).2
          (fun x hx y hy => hanti x (List.mem_cons_of_mem a hx) y (List.mem_cons_of_mem a hy))
      rw [ht]

/-- For a consistent comparator with no ties among the list's members,
reversing the stable ascending sort gives exactly the stable descending
sort. -/
theorem reverse_sortAsc_eq_sortDesc {α : Type} (c : α → α → ℚ) (l : List α)
    (hneg : ∀ a b, c b a = -(c a b))
    (htrans : ∀ a b d, c a b ≤ 0 → c b d ≤ 0 → c a d ≤ 0)
    (hties : ∀ a ∈ l, ∀ b ∈ l, c a b = 0 → a = b) :
    (insertionSortB (fun a b => decide (c a b ≤ 0)) l).reverse
      = insertionSortB (fun a b => decide (-(c a b) ≤ 0)) l := by
  set leA : α → α → Bool := fun a b => decide (c a b ≤ 0) with hleA
  set leD : α → α → Bool := fun a b => decide (-(c a b) ≤ 0) with hleD
  have hD : ∀ a b, leD a b = leA b a := by
    intro a b
    rw [hleA, hleD]
    simp only [decide_eq_decide]
    rw [hneg a b]
  have htotA : ∀ a b, leA a b = true ∨ leA b a = true := by
    intro a b
    by_cases h : c a b ≤ 0
    · left; rw [hleA]; simpa using h
    · right; rw [hleA]
      have hba : c b a ≤ 0 := by rw [hneg a b]; linarith
      simpa using hba
  have htransA : ∀ a b d, leA a b = true → leA b d = true → leA a d = true := by
    intro a b d h1 h2
    rw [hleA] at h1 h2 ⊢
    simp only [decide_eq_true_eq] at h1 h2 ⊢
    exact htrans a b d h1 h2
  have htotD : ∀ a b, leD a b = true ∨ leD b a = true := by
    intro a b
    rw [hD a b, hD b a]
    exact htotA b a
  have htransD : ∀ a b d, leD a b = true → leD b d = true → leD a d = true := by
    intro a b d h1 h2
    rw [hD] at h1 h2 ⊢
    exact htransA d b a h2 h1
  have hpA := pairwise_insertionSortB leA htotA htransA l
  have hpD := pairwise_insertionSortB leD htotD htransD l
  have hperm : List.Perm (insertionSortB leA l).reverse (insertionSortB leD l) :=
    (((insertionSortB leA l).reverse_perm).trans (insertionSortB_perm leA l)).trans
      (insertionSortB_perm leD l).symm
  refine eq_of_perm_of_pairwise (fun a b => leD a b = true) _ _ hperm ?_ hpD ?_
  · rw [List.pairwise_reverse]
    refine hpA.imp ?_
    intro a b hab
    rw [hD b a]
    exact hab
  · intro a ha b hb h1 h2
    have ha' : a ∈ l := (insertionSortB_perm leA l).mem_iff.mp (List.mem_reverse.mp ha)
    have hb' : b ∈ l := (insertionSortB_perm leA l).mem_iff.mp (List.mem_reverse.mp hb)
    have hv1 : -(c a b) ≤ 0 := by
      have := h1
      rw [hleD] at this
      simpa using this
    have hv2 : -(c b a) ≤ 0 := by
      have := h2
      rw [hleD] at this
      simpa using this
    have hz : c a b = 0 := by
      have hn := hneg a b
      rw [hn] at hv2
      linarith
    exact hties a ha' b hb' hz

/-- Sorting a two-element list reduces to one comparison. -/
theorem insertionSortB_pair {α : Type} (le : α → α → Bool) (x y : α) :
    insertionSortB le [x, y] = if le x y then [x, y] else [y, x] := by
  simp [insertionSortB, orderedInsertB]

/-- C3 (amended). If no two books of the list tie under the sort key's
comparator, sorting ascending and reversing equals sorting descending. -/
theorem sortAscReverse_eq_sortDesc (books : List Book) (sb : SortOption)
    (h : ∀ a ∈ books, ∀ b ∈ books, cmpBook sb a b = 0 → a = b) :
    (sortBooks sb SortDirection.asc books).reverse
      = sortBooks sb SortDirection.desc books :=
  reverse_sortAsc_eq_sortDesc (cmpBook sb) books (fun a b => cmpBook_neg sb a b)
    (fun a b d => cmpBook_trans sb a b d) h

/-- Witness for the amended C3: two books with distinct `dateAdded` times
sorted by date. -/
theorem sortAscReverse_eq_sortDesc_witness :
    (sortBooks SortOption.dateAdded SortDirection.asc [readBookFive, readBookThree]).reverse
      = sortBooks SortOption.dateAdded SortDirection.desc [readBookFive, readBookThree] :=
  sortAscReverse_eq_sortDesc [readBookFive, readBookThree] SortOption.dateAdded (by
    intro a ha b hb hcmp
    fin_cases ha <;> fin_cases hb <;>
      first
        | rfl
        | (exfalso
           norm_num [cmpBook, readBookFive, readBookThree, mkBook] at hcmp))

/-- Counterexample for C3 as stated: with two distinct review-less books
(both rating 0, a tie) the stable sort keeps input order in both
directions, so reversing the ascending result differs from the descending
result. -/
theorem sortAscReverse_counterexample :
    (sortBooks SortOption.rating SortDirection.asc [tieBook1, tieBook2]).reverse
      ≠ sortBooks SortOption.rating SortDirection.desc [tieBook1, tieBook2] := by
  have havg1 : getAverageRating tieBook1 = 0 := by
    norm_num [getAverageRating, tieBook1, mkBook]
  have havg2 : getAverageRating tieBook2 = 0 := by
    norm_num [getAverageRating, tieBook2, mkBook]
  have hleAsc : sortLe SortOption.rating SortDirection.asc tieBook1 tieBook2 = true := by
    simp only [sortLe, sortComparator, cmpBook, decide_eq_true_eq, havg1, havg2]
    norm_num
  have hleDesc : sortLe SortOption.rating SortDirection.desc tieBook1 tieBook2 = true := by
    simp only [sortLe, sortComparator, cmpBook, decide_eq_true_eq, havg1, havg2]
    norm_num
  rw [sortBooks, sortBooks, insertionSortB_pair, insertionSortB_pair,
    if_pos hleAsc, if_pos hleDesc]
  intro hcontra
  have : tieBook2 = tieBook1 := (List.cons.inj hcontra).1
  have hid : tieBook2.id = tieBook1.id := by rw [this]
  simp [tieBook1, tieBook2, mkBook] at hid
